import Mathlib

/-!
Shallow embedding of the directory cache (package dircache) and of the two
call pacers (package pacer, and the context-aware pacer in package fs) of
the standalone-gdrive repository, together with proofs of the
specification claims about them.

Go maps are modelled as lookup functions into Option, Go errors as an
inductive type, and every backend interaction is recorded in an explicit
call log so that claims about the number and order of backend calls can
be stated.
-/

deriving instance DecidableEq for Except

namespace StandaloneGdrive

/-! ## Go string primitives -/

/-- Go strings.Split(s, "/") at the character-list level: split around
every slash, keeping empty fields, never returning an empty list. -/
def splitSlash : List Char → List (List Char)
  | [] => [[]]
  | c :: cs =>
    if c = '/' then [] :: splitSlash cs
    else
      match splitSlash cs with
      | [] => [[c]]
      | p :: ps => (c :: p) :: ps

/-- Go strings.Split(s, "/"). -/
def goSplit (s : String) : List String :=
  (splitSlash s.data).map String.mk

/-- Go filepath.Join(a, b) restricted to the path elements this package
produces: it skips empty elements and joins the remainder with a slash.
Go's filepath.Join additionally runs Clean on the joined string, which is
the identity on joins of elements that are nonempty, slash-free and
distinct from "." and ".."; the path-generic theorems below quantify only
over such elements. -/
def goJoin (a b : String) : String :=
  if a = "" then b else if b = "" then a else a ++ "/" ++ b

/-- Go variadic filepath.Join over a list of elements, left to right. -/
def goJoinList (l : List String) : String := l.foldl goJoin ""

/-- A plain path segment: nonempty, slash-free and distinct from the
special elements "." and ".." that filepath.Clean rewrites. -/
def SimpleSeg (s : String) : Prop :=
  s ≠ "" ∧ '/' ∉ s.data ∧ s ≠ "." ∧ s ≠ ".."

instance (s : String) : Decidable (SimpleSeg s) := by
  unfold SimpleSeg; infer_instance

/-! ## Errors and the backend collaborator -/

/-- The errors produced by the embedded code.  Backend errors carry an
opaque payload; the remaining constructors correspond one to one to the
errors.New and fmt.Errorf sites of the source. -/
inductive Err where
  /-- dircache.FindDir: "internal error: FindRoot not called". -/
  | findRootNotCalled
  /-- dircache.FindDir: "couldn't find directory %q". -/
  | dirNotFound (path : String)
  /-- dircache._findRoot: "couldn't find parent directory: %s". -/
  | parentNotFound (path : String)
  /-- dircache._findRoot: "failed to make directory %q: %w". -/
  | createDirFailed (path : String) (e : Err)
  /-- dircache._findRoot: "internal error: couldn't find lastPath in the cache". -/
  | lastPathNotFound
  /-- An opaque error returned by the backend collaborator. -/
  | backend (msg : String)
deriving DecidableEq, Repr

/-- One backend call, as recorded in the call logs. -/
inductive BCall where
  | findLeaf (pathID leaf : String)
  | createDir (pathID leaf : String)
deriving DecidableEq, Repr

/-- The DirCacher interface implemented by the backend.  FindLeaf returns
(pathIDOut, found, err): Except.error is err ≠ nil, ok none is found =
false and ok (some id) is found = true.  CreateDir returns (newID, err). -/
structure DirCacher where
  FindLeaf : String → String → Except Err (Option String)
  CreateDir : String → String → Except Err String

/-! ## The DirCache data model -/

/-- Assignment m[k] = v on a Go map modelled as a lookup function. -/
def mapInsert (m : String → Option String) (k v : String) : String → Option String :=
  fun q => if q = k then some v else m q

/-- DirCache caches paths to directory IDs and vice versa.  The two maps
are the cache and invCache fields; the backend interface fs is passed to
the operations explicitly.  Mutexes guard the Go fields; the embedding is
sequential, so they have no counterpart here. -/
structure DirCache where
  cache : String → Option String
  invCache : String → Option String
  trueRootID : String
  root : String
  rootID : String
  foundRoot : Bool

/-- dircache.New: makes a DirCache with empty maps, rooted at root with
the true root ID rootID. -/
def DirCache.New (root rootID : String) : DirCache :=
  { cache := fun _ => none
    invCache := fun _ => none
    trueRootID := rootID
    root := root
    rootID := rootID
    foundRoot := false }

/-- DirCache.Get: an ID given a path (the ok flag is the Option). -/
def DirCache.Get (dc : DirCache) (path : String) : Option String :=
  dc.cache path

/-- DirCache.GetInv: a path given an ID. -/
def DirCache.GetInv (dc : DirCache) (id : String) : Option String :=
  dc.invCache id

/-- DirCache.Put: store a path, id pair in both maps. -/
def DirCache.Put (dc : DirCache) (path id : String) : DirCache :=
  { dc with
    cache := mapInsert dc.cache path id
    invCache := mapInsert dc.invCache id path }

/-! ## FindDir -/

/-- The outcome of a DirCache operation: the returned value or error, the
cache afterwards, and the backend calls made, in order. -/
structure DirResult where
  res : Except Err String
  dc : DirCache
  log : List BCall

/-- The first loop of DirCache.FindDir: walk the parts accumulating the
joined dirPath; a part whose accumulated path is cached updates parentID,
any other part is appended to partsToFind.  Returns the final parentID,
dirPath and partsToFind. -/
def findDirScan (dc : DirCache) : List String → String → String → String × String × List String
  | [], parentID, dirPath => (parentID, dirPath, [])
  | part :: rest, parentID, dirPath =>
    let dirPath2 := goJoin dirPath part
    match dc.Get dirPath2 with
    | some dirID => findDirScan dc rest dirID dirPath2
    | none =>
      let (p, d, l) := findDirScan dc rest parentID dirPath2
      (p, d, part :: l)

/-- The second loop of DirCache.FindDir: resolve each part of partsToFind
with the backend FindLeaf, continuing to join onto the dirPath left by the
first loop and storing each discovered pair. -/
def findDirResolve (be : DirCacher) (path : String) :
    List String → DirCache → String → String → List BCall → DirResult
  | [], dc, parentID, _, log => ⟨.ok parentID, dc, log⟩
  | part :: rest, dc, parentID, dirPath, log =>
    let log2 := log ++ [BCall.findLeaf parentID part]
    match be.FindLeaf parentID part with
    | .error e => ⟨.error e, dc, log2⟩
    | .ok none => ⟨.error (.dirNotFound path), dc, log2⟩
    | .ok (some dirID) =>
      let dirPath2 := goJoin dirPath part
      findDirResolve be path rest (dc.Put dirPath2 dirID) dirID dirPath2 log2

/-- DirCache.FindDir: find the directory passed in, returning the
directory ID, starting from the root ID. -/
def DirCache.FindDir (dc : DirCache) (be : DirCacher) (path : String) : DirResult :=
  if dc.foundRoot = false then ⟨.error .findRootNotCalled, dc, []⟩
  else if path = "" then ⟨.ok dc.rootID, dc, []⟩
  else
    let parts := goSplit path
    let (parentID, dirPath, partsToFind) := findDirScan dc parts dc.rootID ""
    findDirResolve be path partsToFind dc parentID dirPath []

/-! ## FindRoot -/

/-- The first loop of DirCache._findRoot: find the deepest prefix of the
directories already present in the cache.  done is the already processed
elements (Go directories[:i]).  Returns some parentID when every element
was found (foundAll), none otherwise. -/
def findRootScan (dc : DirCache) : List String → List String → String → Option String
  | _, [], parentID => some parentID
  | done, d :: rest, parentID =>
    if d = "" then findRootScan dc (done ++ [d]) rest parentID
    else
      match dc.Get (goJoinList (done ++ [d])) with
      | some dirID => findRootScan dc (done ++ [d]) rest dirID
      | none => none

/-- The state after the creation loop of DirCache._findRoot: whether it
aborted with an error, the cache, the lastPath variable and the call log. -/
structure RootStep where
  res : Except Err Unit
  dc : DirCache
  lastPath : String
  log : List BCall

/-- The second loop of DirCache._findRoot: create every directory whose
accumulated path is not cached, looking its parent path up in the cache,
calling the backend CreateDir and storing the new pair; lastPath tracks
the last created path. -/
def findRootCreate (be : DirCacher) :
    List String → List String → DirCache → String → List BCall → RootStep
  | _, [], dc, lastPath, log => ⟨.ok (), dc, lastPath, log⟩
  | done, d :: rest, dc, lastPath, log =>
    if d = "" then findRootCreate be (done ++ [d]) rest dc lastPath log
    else
      let dirPath := goJoinList (done ++ [d])
      match dc.Get dirPath with
      | some _ => findRootCreate be (done ++ [d]) rest dc lastPath log
      | none =>
        let parentPath := goJoinList done
        match dc.Get parentPath with
        | none => ⟨.error (.parentNotFound parentPath), dc, lastPath, log⟩
        | some parentID =>
          match be.CreateDir parentID d with
          | .error e =>
              ⟨.error (.createDirFailed dirPath e), dc, lastPath,
                log ++ [BCall.createDir parentID d]⟩
          | .ok dirID =>
              findRootCreate be (done ++ [d]) rest (dc.Put dirPath dirID) dirPath
                (log ++ [BCall.createDir parentID d])

/-- DirCache._findRoot: find the root directory given by root, creating
the directories that do not exist. -/
def DirCache.findRootAux (dc : DirCache) (be : DirCacher) (root : String) : DirResult :=
  if root = "" then ⟨.ok dc.rootID, dc, []⟩
  else
    let directories := goSplit root
    match findRootScan dc [] directories dc.rootID with
    | some parentID => ⟨.ok parentID, dc, []⟩
    | none =>
      let step := findRootCreate be [] directories dc "" []
      match step.res with
      | .error e => ⟨.error e, step.dc, step.log⟩
      | .ok _ =>
        match step.dc.Get step.lastPath with
        | some id => ⟨.ok id, step.dc, step.log⟩
        | none => ⟨.error .lastPathNotFound, step.dc, step.log⟩

/-- DirCache.FindRoot: finds the actual root from the root path and
rootID, latching the result into rootID and foundRoot on success. -/
def DirCache.FindRoot (dc : DirCache) (be : DirCacher) : DirResult :=
  if dc.foundRoot then ⟨.ok dc.rootID, dc, []⟩
  else
    let r := dc.findRootAux be dc.root
    match r.res with
    | .error e => ⟨.error e, r.dc, r.log⟩
    | .ok rootID =>
        ⟨.ok rootID, { r.dc with foundRoot := true, rootID := rootID }, r.log⟩

/-! ## The pacer package

The pacer is generic over the Go error interface, modelled by a type
parameter E; a Go error value is Option E with none standing for nil.
time.Duration is int64, modelled as Int with explicit two's-complement
wrapping where Go arithmetic wraps. -/

/-- Two's-complement wrap of an integer into the int64 range. -/
def wrap64 (x : Int) : Int := (x + 2 ^ 63) % 2 ^ 64 - 2 ^ 63

/-- pacer.State: the public Pacer state passed to the Calculator. -/
structure PState (E : Type) where
  SleepTime : Int
  ConsecutiveRetries : Int
  LastError : Option E

/-- pacer.DefaultCalculator: the default backoff configuration. -/
structure DefaultCalculator where
  minSleep : Int
  maxSleep : Int
  decayConstant : Nat
  burst : Int

/-- DefaultCalculator.Calculate: the next sleep time from the State.  The
Go shift state.SleepTime << c.decayConstant on int64 is the product with
2 ^ decayConstant wrapped into the int64 range. -/
def DefaultCalculator.Calculate (c : DefaultCalculator) (state : PState E) : Int :=
  if state.ConsecutiveRetries = 0 then 0
  else if state.ConsecutiveRetries = 1 then c.minSleep
  else
    let s1 := wrap64 (state.SleepTime * 2 ^ c.decayConstant)
    let s2 := if s1 < c.minSleep then c.minSleep else s1
    if c.maxSleep > 0 ∧ s2 > c.maxSleep then c.maxSleep else s2

/-- pacer.DefaultInvoker: the default InvokerFunc.  The wrapped operation
invokes the paced function exactly once; the embedding therefore passes
the invoker the result of that single invocation. -/
def DefaultInvoker (tryN tries : Nat) (paced : Bool × Option E) : Bool × Option E :=
  let (again, err) := paced
  if tries ≤ tryN then (false, err)
  else (again, err)

/-- The Pacer configuration: pacerOptions together with the calculator as
a function of the state (Calculator.Calculate) and the invoker as a
function of the single paced result (see DefaultInvoker). -/
structure PacerCfg (E : Type) where
  maxConnections : Nat
  retries : Nat
  calculator : PState E → Int
  invoker : Nat → Nat → (Bool × Option E) → Bool × Option E

/-- The outcome of Pacer.Call: the returned error, how many times the
paced operation was invoked, the final pacer state and the sleeps
performed, in order. -/
structure CallOut (E : Type) where
  err : Option E
  count : Nat
  state : PState E
  sleeps : List Int

/-- The loop of Pacer.Call.  remaining is the fuel p.retries + 1 - try
for the loop condition try <= p.retries; cr is the local
consecutiveRetries variable passed to the invoker; count numbers the
invocations of the paced operation, whose successive results are given by
f.  The fuel-exhausted case is the unreachable return after the loop. -/
def callLoop (p : PacerCfg E) (f : Nat → Bool × Option E) :
    Nat → Nat → Nat → Nat → PState E → Option E → List Int → CallOut E
  | 0, _, _, count, st, lastErr, sleeps => ⟨lastErr, count, st, sleeps⟩
  | remaining + 1, tryN, cr, count, st, lastErr, sleeps =>
    let (again, err) := p.invoker cr p.retries (f count)
    let count2 := count + 1
    if again = false ∨ p.retries ≤ tryN then
      ⟨err, count2, { st with ConsecutiveRetries := 0, LastError := none }, sleeps⟩
    else
      let st2 := { st with ConsecutiveRetries := st.ConsecutiveRetries + 1, LastError := err }
      let sleepTime := p.calculator st2
      let st3 := { st2 with SleepTime := sleepTime }
      let cr2 := if again then cr + 1 else 0
      let sleeps2 := sleeps ++ [sleepTime]
      if again = false then ⟨err, count2, st3, sleeps2⟩
      else callLoop p f remaining (tryN + 1) cr2 count2 st3 err sleeps2

/-- Pacer.Call: run the paced operation f with retries, starting from the
pacer state st. -/
def PacerCfg.Call (p : PacerCfg E) (f : Nat → Bool × Option E) (st : PState E) : CallOut E :=
  callLoop p f (p.retries + 1) 0 0 0 st none []

/-! ## The context-aware pacer of package fs

fs.Pacer.Call has two suspension points per iteration, the token select
and the retry-delay select; a canceled context makes a select take the
ctx.Done branch.  The choices the two selects make are supplied by the
oracles tokCancel and sleepCancel, indexed by the loop variable try, so
that every interleaving of cancellation with the loop is covered. -/

/-- fs.Pacer: the context-aware pacer.  calculateDelay receives the
fs.PacerState fields ConsecutiveRetries and LastError. -/
structure FsPacer (E : Type) where
  maxConnections : Nat
  retries : Nat
  calculateDelay : Int → Option E → Int

/-- The result of fs.Pacer.Call: ctxErr is a return of ctx.Err() from one
of the two selects, normal is the return of the loop error. -/
inductive FsCallRes (E : Type) where
  | ctxErr
  | normal (err : Option E)
deriving DecidableEq

/-- The outcome of fs.Pacer.Call: the result, the number of invocations
of the wrapped function and the delays slept, in order. -/
structure FsCallOut (E : Type) where
  res : FsCallRes E
  count : Nat
  delays : List Int

/-- The loop of fs.Pacer.Call; fn gives the successive results of the
wrapped function, remaining is the fuel p.retries + 1 - try. -/
def fsCallLoop (p : FsPacer E) (fn : Nat → Option E) (tokCancel sleepCancel : Nat → Bool) :
    Nat → Nat → Nat → Option E → List Int → FsCallOut E
  | 0, _, count, lastErr, delays => ⟨.normal lastErr, count, delays⟩
  | remaining + 1, tryN, count, lastErr, delays =>
    if tokCancel tryN then ⟨.ctxErr, count, delays⟩
    else
      let err := fn count
      let count2 := count + 1
      if err.isNone then ⟨.normal err, count2, delays⟩
      else if p.retries ≤ tryN then ⟨.normal err, count2, delays⟩
      else
        let delay := p.calculateDelay (Int.ofNat tryN) err
        if sleepCancel tryN then ⟨.ctxErr, count2, delays⟩
        else fsCallLoop p fn tokCancel sleepCancel remaining (tryN + 1) count2 err (delays ++ [delay])

/-- fs.Pacer.Call: call fn with rate limiting and retrying under the
cancellation oracles. -/
def FsPacer.Call (p : FsPacer E) (fn : Nat → Option E) (tokCancel sleepCancel : Nat → Bool) :
    FsCallOut E :=
  fsCallLoop p fn tokCancel sleepCancel (p.retries + 1) 0 0 none []

/-! ## Theorems for the claims -/

/-- The clamp described by the specification: the shifted value raised to
minSleep if smaller, and capped at maxSleep only when maxSleep is
positive. -/
def specClamp (c : DefaultCalculator) (x : Int) : Int :=
  if c.maxSleep > 0 then min (max x c.minSleep) c.maxSleep else max x c.minSleep

/-- C5: the default backoff calculator returns 0 when ConsecutiveRetries
is 0, minSleep when it is exactly 1, and otherwise the previous SleepTime
left-shifted (as a Go int64) by the decay constant, raised to minSleep if
smaller and capped at maxSleep only when maxSleep is positive. -/
theorem claim_C5 (c : DefaultCalculator) (state : PState E) :
    c.Calculate state =
      if state.ConsecutiveRetries = 0 then 0
      else if state.ConsecutiveRetries = 1 then c.minSleep
      else specClamp c (wrap64 (state.SleepTime * 2 ^ c.decayConstant)) := by
  simp only [DefaultCalculator.Calculate, specClamp, min_def, max_def, gt_iff_lt]
  split_ifs <;> omega

/-- C7: FindDir called before FindRoot has completed returns the internal
precondition error for every input path, makes no backend calls and
leaves the cache untouched. -/
theorem claim_C7 (dc : DirCache) (be : DirCacher) (path : String)
    (h : dc.foundRoot = false) :
    dc.FindDir be path = ⟨.error .findRootNotCalled, dc, []⟩ := by
  unfold DirCache.FindDir
  rw [h]
  simp

/-- Witness for C7 at a concrete fresh cache and the empty path. -/
theorem claim_C7_witness :
    (DirCache.New "r" "root").FindDir
      ⟨fun _ _ => .ok none, fun _ _ => .error (.backend "x")⟩ "" =
      ⟨.error .findRootNotCalled, DirCache.New "r" "root", []⟩ :=
  claim_C7 (DirCache.New "r" "root") _ "" rfl

/-- C8: Put is an overwrite-only update without cross-invalidation of the
inverse map: after Put(p, id1) and Put(p, id2) with id1 distinct from
id2, Get(p) is id2 while GetInv(id1) still answers p. -/
theorem claim_C8 (dc : DirCache) (p id1 id2 : String) (h : id1 ≠ id2) :
    ((dc.Put p id1).Put p id2).Get p = some id2 ∧
      ((dc.Put p id1).Put p id2).GetInv id1 = some p := by
  constructor
  · simp [DirCache.Put, DirCache.Get, mapInsert]
  · simp [DirCache.Put, DirCache.GetInv, mapInsert, h, Ne.symm h]

/-- Witness for C8 at concrete path and IDs. -/
theorem claim_C8_witness :
    (((DirCache.New "" "root").Put "p" "1").Put "p" "2").Get "p" = some "2" ∧
      (((DirCache.New "" "root").Put "p" "1").Put "p" "2").GetInv "1" = some "p" :=
  claim_C8 (DirCache.New "" "root") "p" "1" "2" (by decide)

/-- C1 (evaluation at the failing input): for a DirCache constructed with
root "a/b/c" and an empty cache, FindRoot does not create the three
directories the specification describes: it makes no backend call at all
and fails with the couldn-not-find-parent-directory error for the empty
parent path, because the creation loop looks the first segment's parent
path "" up in a cache that never contains it. -/
theorem claim_C1 (be : DirCacher) (rootID : String) :
    ((DirCache.New "a/b/c" rootID).FindRoot be).res = .error (.parentNotFound "") ∧
      ((DirCache.New "a/b/c" rootID).FindRoot be).log = [] :=
  ⟨rfl, rfl⟩

/-! ### C4: FindDir on a cached path -/

/-- A cache holding "x/y" but not its prefix "x", with the root found. -/
def dcOnlyDeep : DirCache :=
  { cache := mapInsert (fun _ => none) "x/y" "idxy"
    invCache := fun _ => none
    trueRootID := "ROOT"
    root := ""
    rootID := "ROOT"
    foundRoot := true }

/-- A backend whose FindLeaf finds leaf "x" under directory "idxy". -/
def beOnlyDeep : DirCacher :=
  { FindLeaf := fun pid leaf =>
      if pid = "idxy" ∧ leaf = "x" then .ok (some "OTHER") else .ok none
    CreateDir := fun _ _ => .error (.backend "unused") }

/-- Counterexample to C4 as stated: a cache state in which "x/y" is
present (but its prefix "x" is not) on which FindDir neither returns the
cached ID nor makes zero FindLeaf calls: the first loop collects the
uncached shallower part "x" even though the deeper "x/y" is cached, so
the second loop looks "x" up under the ID cached for "x/y". -/
theorem counterexample_C4 :
    dcOnlyDeep.Get "x/y" = some "idxy" ∧
      (dcOnlyDeep.FindDir beOnlyDeep "x/y").res ≠ .ok "idxy" ∧
      (dcOnlyDeep.FindDir beOnlyDeep "x/y").log ≠ [] := by
  refine ⟨rfl, ?_, ?_⟩ <;> decide

/-- C4 as amended: whenever every accumulated prefix of "x/y" (both "x"
and "x/y") is present in the cache, FindDir returns the cached ID for
"x/y", leaves the cache unchanged and makes zero backend calls. -/
theorem claim_C4 (dc : DirCache) (be : DirCacher) (idx idxy : String)
    (hfr : dc.foundRoot = true)
    (h1 : dc.Get "x" = some idx) (h2 : dc.Get "x/y" = some idxy) :
    (dc.FindDir be "x/y").res = .ok idxy ∧
      (dc.FindDir be "x/y").dc = dc ∧
      (dc.FindDir be "x/y").log = [] := by
  have hsplit : goSplit "x/y" = ["x", "y"] := rfl
  have hj1 : goJoin "" "x" = "x" := rfl
  have hj2 : goJoin "x" "y" = "x/y" := rfl
  unfold DirCache.FindDir
  rw [hfr]
  simp only [Bool.true_eq_false, if_false, hsplit, reduceIte, findDirScan, hj1, hj2, h1, h2,
    findDirResolve]
  exact ⟨rfl, rfl, rfl⟩

/-- A cache holding both "x" and "x/y", with the root found. -/
def dcBothLevels : DirCache :=
  { cache := mapInsert (mapInsert (fun _ => none) "x" "idx") "x/y" "idxy"
    invCache := fun _ => none
    trueRootID := "ROOT"
    root := ""
    rootID := "ROOT"
    foundRoot := true }

/-- Witness for C4 as amended, on a concrete cache holding both "x" and
"x/y". -/
theorem claim_C4_witness :
    (dcBothLevels.FindDir beOnlyDeep "x/y").res = .ok "idxy" ∧
      (dcBothLevels.FindDir beOnlyDeep "x/y").dc = dcBothLevels ∧
      (dcBothLevels.FindDir beOnlyDeep "x/y").log = [] :=
  claim_C4 dcBothLevels beOnlyDeep "idx" "idxy" rfl (by decide) (by decide)

/-! ### C2: FindDir failing on a not-found leaf -/

/-- An empty cache with the root found. -/
def dcEmptyFound : DirCache :=
  { cache := fun _ => none
    invCache := fun _ => none
    trueRootID := "ROOT"
    root := ""
    rootID := "ROOT"
    foundRoot := true }

/-- A backend that finds leaf "a" under the root but reports every other
leaf, in particular "b" under "idA", as not found. -/
def beFindsOnlyA : DirCacher :=
  { FindLeaf := fun pid leaf =>
      if pid = "ROOT" ∧ leaf = "a" then .ok (some "idA") else .ok none
    CreateDir := fun _ _ => .error (.backend "unused") }

/-- Counterexample to C2 as stated: FindDir on "a/b" fails because the
backend FindLeaf reports leaf "b" not found, yet the cache is not what it
was before the call: the entry stored for the leaf "a" found in the
earlier iteration remains (under the doubled key "a/b/a" the second loop
builds). -/
theorem counterexample_C2 :
    (dcEmptyFound.FindDir beFindsOnlyA "a/b").res = .error (.dirNotFound "a/b") ∧
      (dcEmptyFound.FindDir beFindsOnlyA "a/b").log =
        [.findLeaf "ROOT" "a", .findLeaf "idA" "b"] ∧
      (dcEmptyFound.FindDir beFindsOnlyA "a/b").dc.Get "a/b/a" = some "idA" ∧
      dcEmptyFound.Get "a/b/a" = none := by
  exact ⟨rfl, rfl, rfl, rfl⟩

/-- C2 as amended: when the first FindLeaf lookup FindDir makes reports
its leaf not found — stated here for a backend finding no leaf at all, so
that any lookup is the first — FindDir leaves both cache maps exactly as
they were and, unless the whole path was served from the cache, returns
the NotFound error for the path. -/
theorem claim_C2 (dc : DirCache) (be : DirCacher) (path : String)
    (hfr : dc.foundRoot = true)
    (hbe : ∀ a b, be.FindLeaf a b = .ok none) :
    (dc.FindDir be path).dc = dc ∧
      ((∃ id, (dc.FindDir be path).res = .ok id) ∨
        (dc.FindDir be path).res = .error (.dirNotFound path)) := by
  unfold DirCache.FindDir
  rw [hfr]
  simp only [Bool.true_eq_false, if_false]
  by_cases hp : path = ""
  · simp [hp]
  · simp only [if_neg hp]
    rcases hscan : findDirScan dc (goSplit path) dc.rootID "" with ⟨parentID, dirPath, partsToFind⟩
    cases partsToFind with
    | nil => exact ⟨rfl, Or.inl ⟨parentID, rfl⟩⟩
    | cons part rest =>
      simp only [findDirResolve, hbe]
      exact ⟨trivial, Or.inr trivial⟩

/-- Witness for C2 as amended: an uncached path under a backend that
finds nothing. -/
theorem claim_C2_witness :
    (dcEmptyFound.FindDir ⟨fun _ _ => .ok none, fun _ _ => .error (.backend "unused")⟩
        "a/b").dc = dcEmptyFound ∧
      ((∃ id, (dcEmptyFound.FindDir
          ⟨fun _ _ => .ok none, fun _ _ => .error (.backend "unused")⟩ "a/b").res = .ok id) ∨
        (dcEmptyFound.FindDir ⟨fun _ _ => .ok none, fun _ _ => .error (.backend "unused")⟩
          "a/b").res = .error (.dirNotFound "a/b")) :=
  claim_C2 dcEmptyFound _ "a/b" rfl (fun _ _ => rfl)

/-! ### C3: retry budget of Pacer.Call -/

/-- Helper for C3: on an operation that always wants a retry with error
e, the Call loop with the default invoker performs one invocation per
budget step, from tryN up to and including p.retries, and exits with e. -/
theorem callLoop_alwaysRetry (p : PacerCfg E) (e : E)
    (hinv : p.invoker = fun a b r => DefaultInvoker a b r) :
    ∀ remaining tryN count (st : PState E) lastErr sleeps,
      remaining = p.retries + 1 - tryN → tryN ≤ p.retries →
      (callLoop p (fun _ => (true, some e)) remaining tryN tryN count st lastErr sleeps).count
          = count + (p.retries - tryN) + 1 ∧
        (callLoop p (fun _ => (true, some e)) remaining tryN tryN count st lastErr sleeps).err
          = some e := by
  intro remaining
  induction remaining with
  | zero => intro tryN count st lastErr sleeps h1 h2; omega
  | succ m ih =>
    intro tryN count st lastErr sleeps h1 h2
    by_cases hend : p.retries ≤ tryN
    · simp only [callLoop, hinv, DefaultInvoker, if_pos hend, if_pos (Or.inr hend)]
      exact ⟨by simp; omega, trivial⟩
    · simp only [callLoop, hinv, DefaultInvoker, if_neg hend]
      rw [if_neg (show ¬((true = false) ∨ p.retries ≤ tryN) by simp [hend])]
      rw [if_neg (show ¬(true = false) by simp)]
      simp only [if_true]
      constructor
      · rw [(ih (tryN + 1) (count + 1) _ (some e) _ (by omega) (by omega)).1]; omega
      · exact (ih (tryN + 1) (count + 1) _ (some e) _ (by omega) (by omega)).2

/-- C3: with the default invoker and retry budget retries, Call on an
operation that always returns (true, e) invokes it exactly retries + 1
times and returns that last error verbatim; and an operation returning
(false, nil) on its first attempt makes Call return nil after exactly one
invocation. -/
theorem claim_C3 (E : Type) (maxConn retries : Nat) (calculator : PState E → Int)
    (st : PState E) (e : E) :
    (((⟨maxConn, retries, calculator, fun a b r => DefaultInvoker a b r⟩ : PacerCfg E).Call
          (fun _ => (true, some e)) st).count = retries + 1 ∧
        ((⟨maxConn, retries, calculator, fun a b r => DefaultInvoker a b r⟩ : PacerCfg E).Call
          (fun _ => (true, some e)) st).err = some e) ∧
      ∀ f : Nat → Bool × Option E, f 0 = (false, none) →
        ((⟨maxConn, retries, calculator, fun a b r => DefaultInvoker a b r⟩ : PacerCfg E).Call
            f st).count = 1 ∧
          ((⟨maxConn, retries, calculator, fun a b r => DefaultInvoker a b r⟩ : PacerCfg E).Call
            f st).err = none := by
  constructor
  · have h := callLoop_alwaysRetry
      (⟨maxConn, retries, calculator, fun a b r => DefaultInvoker a b r⟩ : PacerCfg E) e rfl
      (retries + 1) 0 0 st none [] rfl (Nat.zero_le _)
    simpa [PacerCfg.Call] using h
  · intro f hf
    unfold PacerCfg.Call
    simp only [callLoop, hf, DefaultInvoker, ite_self]
    exact ⟨rfl, rfl⟩

/-- Witness for C3: budget 2, an always-retrying operation invoked 3
times, and a first-try success invoked once. -/
theorem claim_C3_witness :
    (((⟨8, 2, fun _ => 0, fun a b r => DefaultInvoker a b r⟩ : PacerCfg String).Call
          (fun _ => (true, some "boom")) ⟨0, 0, none⟩).count = 2 + 1 ∧
        ((⟨8, 2, fun _ => 0, fun a b r => DefaultInvoker a b r⟩ : PacerCfg String).Call
          (fun _ => (true, some "boom")) ⟨0, 0, none⟩).err = some "boom") ∧
      (((⟨8, 2, fun _ => 0, fun a b r => DefaultInvoker a b r⟩ : PacerCfg String).Call
          (fun _ => (false, none)) ⟨0, 0, none⟩).count = 1 ∧
        ((⟨8, 2, fun _ => 0, fun a b r => DefaultInvoker a b r⟩ : PacerCfg String).Call
          (fun _ => (false, none)) ⟨0, 0, none⟩).err = none) :=
  ⟨(claim_C3 String 8 2 (fun _ => 0) ⟨0, 0, none⟩ "boom").1,
    (claim_C3 String 8 2 (fun _ => 0) ⟨0, 0, none⟩ "boom").2 (fun _ => (false, none)) rfl⟩

/-! ### C9: cancellation of the context-aware pacer Call -/

/-- Helper for C9: if the loop of the context-aware Call runs m full
iterations without cancellation and with failing operations, then a
cancellation observed at the token select of the next iteration returns
ctxErr having invoked the operation only for the completed iterations,
and a cancellation observed at the delay select of that iteration returns
ctxErr with exactly one more invocation. -/
theorem fsCallLoop_cancel (p : FsPacer E) (fn : Nat → Option E)
    (tokCancel sleepCancel : Nat → Bool) :
    ∀ m tryN count (lastErr : Option E) delays,
      tryN + m ≤ p.retries →
      (∀ j, j < m → tokCancel (tryN + j) = false ∧ sleepCancel (tryN + j) = false ∧
        fn (count + j) ≠ none) →
      ((tokCancel (tryN + m) = true →
          (fsCallLoop p fn tokCancel sleepCancel (p.retries + 1 - tryN) tryN count lastErr
              delays).res = .ctxErr ∧
            (fsCallLoop p fn tokCancel sleepCancel (p.retries + 1 - tryN) tryN count lastErr
              delays).count = count + m) ∧
        (tokCancel (tryN + m) = false → fn (count + m) ≠ none → tryN + m < p.retries →
          sleepCancel (tryN + m) = true →
          (fsCallLoop p fn tokCancel sleepCancel (p.retries + 1 - tryN) tryN count lastErr
              delays).res = .ctxErr ∧
            (fsCallLoop p fn tokCancel sleepCancel (p.retries + 1 - tryN) tryN count lastErr
              delays).count = count + m + 1)) := by
  intro m
  induction m with
  | zero =>
    intro tryN count lastErr delays hle _
    obtain ⟨rm, hrm⟩ : ∃ rm, p.retries + 1 - tryN = rm + 1 := ⟨p.retries - tryN, by omega⟩
    rw [hrm]
    constructor
    · intro htok
      simp only [Nat.add_zero] at htok
      simp only [fsCallLoop, htok, if_true]
      exact ⟨trivial, by omega⟩
    · intro htok hfn hlt hslp
      simp only [Nat.add_zero] at htok hfn hlt hslp
      have hiN : (fn count).isNone = false := by
        cases hc : fn count with
        | none => exact absurd hc hfn
        | some v => rfl
      simp only [fsCallLoop, htok, Bool.false_eq_true, if_false, hiN,
        if_neg (by omega : ¬ p.retries ≤ tryN), hslp, if_true]
      exact ⟨trivial, trivial⟩
  | succ m ih =>
    intro tryN count lastErr delays hle hpre
    obtain ⟨h0t, h0s, h0f⟩ := hpre 0 (Nat.succ_pos m)
    simp only [Nat.add_zero] at h0t h0s h0f
    obtain ⟨rm, hrm⟩ : ∃ rm, p.retries + 1 - tryN = rm + 1 := ⟨p.retries - tryN, by omega⟩
    rw [hrm]
    have hiN : (fn count).isNone = false := by
      cases hc : fn count with
      | none => exact absurd hc h0f
      | some v => rfl
    have hrec : rm = p.retries + 1 - (tryN + 1) := by omega
    have hstep : ∀ (lE : Option E) (ds : List Int),
        fsCallLoop p fn tokCancel sleepCancel (rm + 1) tryN count lE ds =
          fsCallLoop p fn tokCancel sleepCancel rm (tryN + 1) (count + 1) (fn count)
            (ds ++ [p.calculateDelay (Int.ofNat tryN) (fn count)]) := by
      intro lE ds
      simp only [fsCallLoop, h0t, Bool.false_eq_true, if_false, hiN,
        if_neg (by omega : ¬ p.retries ≤ tryN), h0s]
    rw [hstep, hrec]
    have hidx : tryN + 1 + m = tryN + (m + 1) := by omega
    have hcnt : count + 1 + m = count + (m + 1) := by omega
    have IH := ih (tryN + 1) (count + 1) (fn count)
      (delays ++ [p.calculateDelay (Int.ofNat tryN) (fn count)]) (by omega)
      (fun j hj => by
        have h3 := hpre (j + 1) (by omega)
        have e1 : tryN + (j + 1) = tryN + 1 + j := by omega
        have e2 : count + (j + 1) = count + 1 + j := by omega
        rw [e1, e2] at h3
        exact h3)
    rw [hidx, hcnt] at IH
    exact IH

/-- C9: cancelling the context while Call waits for a connection token
makes it return the context error without invoking the wrapped operation
for that iteration, and cancelling it during the retry sleep makes it
return the context error without consuming any further retry budget: in
both cases no later invocation happens. -/
theorem claim_C9 (p : FsPacer E) (fn : Nat → Option E) (tokCancel sleepCancel : Nat → Bool)
    (k : Nat) (hk : k ≤ p.retries)
    (hbefore : ∀ j, j < k → tokCancel j = false ∧ sleepCancel j = false ∧ fn j ≠ none) :
    (tokCancel k = true →
        (p.Call fn tokCancel sleepCancel).res = .ctxErr ∧
          (p.Call fn tokCancel sleepCancel).count = k) ∧
      (tokCancel k = false → fn k ≠ none → k < p.retries → sleepCancel k = true →
        (p.Call fn tokCancel sleepCancel).res = .ctxErr ∧
          (p.Call fn tokCancel sleepCancel).count = k + 1) := by
  have h := fsCallLoop_cancel p fn tokCancel sleepCancel k 0 0 none [] (by omega)
    (fun j hj => by simpa using hbefore j hj)
  unfold FsPacer.Call
  simpa using h

theorem claim_C9_witness :
    (((⟨1, 3, fun _ _ => 7⟩ : FsPacer String).Call (fun _ => some "e")
          (fun j => decide (j = 1)) (fun _ => false)).res = .ctxErr ∧
        ((⟨1, 3, fun _ _ => 7⟩ : FsPacer String).Call (fun _ => some "e")
          (fun j => decide (j = 1)) (fun _ => false)).count = 1) ∧
      (((⟨1, 3, fun _ _ => 7⟩ : FsPacer String).Call (fun _ => some "e")
          (fun _ => false) (fun j => decide (j = 0))).res = .ctxErr ∧
        ((⟨1, 3, fun _ _ => 7⟩ : FsPacer String).Call (fun _ => some "e")
          (fun _ => false) (fun j => decide (j = 0))).count = 0 + 1) :=
  ⟨(claim_C9 (⟨1, 3, fun _ _ => 7⟩ : FsPacer String) (fun _ => some "e")
        (fun j => decide (j = 1)) (fun _ => false) 1 (by decide) (by decide)).1 (by decide),
    (claim_C9 (⟨1, 3, fun _ _ => 7⟩ : FsPacer String) (fun _ => some "e")
        (fun _ => false) (fun j => decide (j = 0)) 0 (by decide) (by decide)).2
      rfl (by decide) (by decide) rfl⟩

/-! ### C10: concurrency of Pacer.Call under maxConnections -/

/-- The control locations of one Pacer.Call invocation of the pacer
package, at the granularity of its synchronization points: before
mu.Lock, holding mu before receiving the pacer token, before receiving a
connection token, executing the wrapped operation, at the
retry-or-return branch after the connection token went back, sleeping
with the pacer token withheld, re-locked to return the pacer token, and
returned. -/
inductive Loc where
  | start
  | acquire
  | connWait
  | exec
  | branch
  | sleeping
  | ret
  | done
deriving DecidableEq

/-- Whether a location lies inside the region executed with the pacer
mutex p.mu held: Call locks it before receiving the pacer token and
releases it on return or before the backoff sleep, re-acquiring it to
return the pacer token. -/
def Loc.holdsMu : Loc → Bool
  | .acquire | .connWait | .exec | .branch | .ret => true
  | _ => false

/-- A configuration of n concurrent Pacer.Call invocations sharing one
pacer: each thread's location, the mutex owner, and the tokens currently
buffered in the pacer and connection channels. -/
structure Conf (n : Nat) where
  loc : Fin n → Loc
  muOwner : Option (Fin n)
  pacerTok : Nat
  connTok : Nat

/-- The interleaving semantics of Pacer.Call: one constructor per
synchronization point of the source (mu.Lock, the two channel receives,
the operation returning with its connection token sent back, the exit
branch, the retry branch releasing mu for the sleep, re-locking after
the sleep, and returning the pacer token before looping or returning). -/
inductive Step {n : Nat} : Conf n → Conf n → Prop where
  | lock (c : Conf n) (i : Fin n) : c.loc i = .start → c.muOwner = none →
      Step c ⟨Function.update c.loc i .acquire, some i, c.pacerTok, c.connTok⟩
  | takePacer (c : Conf n) (i : Fin n) : c.loc i = .acquire → 0 < c.pacerTok →
      Step c ⟨Function.update c.loc i .connWait, c.muOwner, c.pacerTok - 1, c.connTok⟩
  | takeConn (c : Conf n) (i : Fin n) : c.loc i = .connWait → 0 < c.connTok →
      Step c ⟨Function.update c.loc i .exec, c.muOwner, c.pacerTok, c.connTok - 1⟩
  | finishOp (c : Conf n) (i : Fin n) : c.loc i = .exec →
      Step c ⟨Function.update c.loc i .branch, c.muOwner, c.pacerTok, c.connTok + 1⟩
  | exitCall (c : Conf n) (i : Fin n) : c.loc i = .branch →
      Step c ⟨Function.update c.loc i .done, none, c.pacerTok + 1, c.connTok⟩
  | toSleep (c : Conf n) (i : Fin n) : c.loc i = .branch →
      Step c ⟨Function.update c.loc i .sleeping, none, c.pacerTok, c.connTok⟩
  | wake (c : Conf n) (i : Fin n) : c.loc i = .sleeping → c.muOwner = none →
      Step c ⟨Function.update c.loc i .ret, some i, c.pacerTok, c.connTok⟩
  | retDone (c : Conf n) (i : Fin n) : c.loc i = .ret →
      Step c ⟨Function.update c.loc i .done, none, c.pacerTok + 1, c.connTok⟩
  | retLoop (c : Conf n) (i : Fin n) : c.loc i = .ret →
      Step c ⟨Function.update c.loc i .start, none, c.pacerTok + 1, c.connTok⟩

/-- The initial configuration: every thread before its Call, the mutex
free, one pacer token and K connection tokens, exactly as New fills the
channels for maxConnections = K. -/
def initConf (n K : Nat) : Conf n :=
  ⟨fun _ => .start, none, 1, K⟩

/-- Reachability from the initial configuration under the interleaving
semantics. -/
def Reach (n K : Nat) (c : Conf n) : Prop :=
  Relation.ReflTransGen Step (initConf n K) c

/-- Any thread inside the mutex-protected region is the mutex owner. -/
def MuInv {n : Nat} (c : Conf n) : Prop :=
  ∀ i, (c.loc i).holdsMu = true → c.muOwner = some i

/-- Each step preserves the mutex invariant. -/
theorem muInv_step {n : Nat} {c c2 : Conf n} (h : Step c c2) (hinv : MuInv c) : MuInv c2 := by
  cases h with
  | lock i hloc hmu =>
    intro j hj
    by_cases hij : j = i
    · subst hij; rfl
    · simp only [Function.update_noteq hij] at hj
      exact absurd (hinv j hj) (by rw [hmu]; simp)
  | takePacer i hloc hp =>
    intro j hj
    by_cases hij : j = i
    · subst hij; exact hinv j (by rw [hloc]; rfl)
    · simp only [Function.update_noteq hij] at hj; exact hinv j hj
  | takeConn i hloc hp =>
    intro j hj
    by_cases hij : j = i
    · subst hij; exact hinv j (by rw [hloc]; rfl)
    · simp only [Function.update_noteq hij] at hj; exact hinv j hj
  | finishOp i hloc =>
    intro j hj
    by_cases hij : j = i
    · subst hij; exact hinv j (by rw [hloc]; rfl)
    · simp only [Function.update_noteq hij] at hj; exact hinv j hj
  | exitCall i hloc =>
    intro j hj
    by_cases hij : j = i
    · subst hij; simp only [Function.update_same] at hj; exact absurd hj (by decide)
    · simp only [Function.update_noteq hij] at hj
      exact absurd (Option.some.inj ((hinv j hj).symm.trans (hinv i (by rw [hloc]; rfl)))) hij
  | toSleep i hloc =>
    intro j hj
    by_cases hij : j = i
    · subst hij; simp only [Function.update_same] at hj; exact absurd hj (by decide)
    · simp only [Function.update_noteq hij] at hj
      exact absurd (Option.some.inj ((hinv j hj).symm.trans (hinv i (by rw [hloc]; rfl)))) hij
  | wake i hloc hmu =>
    intro j hj
    by_cases hij : j = i
    · subst hij; rfl
    · simp only [Function.update_noteq hij] at hj
      exact absurd (hinv j hj) (by rw [hmu]; simp)
  | retDone i hloc =>
    intro j hj
    by_cases hij : j = i
    · subst hij; simp only [Function.update_same] at hj; exact absurd hj (by decide)
    · simp only [Function.update_noteq hij] at hj
      exact absurd (Option.some.inj ((hinv j hj).symm.trans (hinv i (by rw [hloc]; rfl)))) hij
  | retLoop i hloc =>
    intro j hj
    by_cases hij : j = i
    · subst hij; simp only [Function.update_same] at hj; exact absurd hj (by decide)
    · simp only [Function.update_noteq hij] at hj
      exact absurd (Option.some.inj ((hinv j hj).symm.trans (hinv i (by rw [hloc]; rfl)))) hij

/-- Every reachable configuration satisfies the mutex invariant. -/
theorem muInv_reach {n K : Nat} : ∀ c : Conf n, Reach n K c → MuInv c := by
  intro c h
  induction h with
  | refl => intro j hj; simp [initConf, Loc.holdsMu] at hj
  | tail hsteps hstep ih => exact muInv_step hstep ih

/-- C10 (evaluation at the failing input): with maxConnections = 2 and
two concurrent Calls, every reachable configuration has at most one
operation body in its call phase — the first half of the claim holds
trivially, but the second half fails: because Call keeps p.mu locked
across the invoker call, two unrelated calls can never execute their
call phases concurrently, making the connection pool bound irrelevant. -/
theorem claim_C10 (c : Conf 2) (h : Reach 2 2 c) :
    (Finset.univ.filter fun i => c.loc i = Loc.exec).card ≤ 1 ∧
      ¬(c.loc 0 = Loc.exec ∧ c.loc 1 = Loc.exec) := by
  have hinv := muInv_reach c h
  constructor
  · refine Finset.card_le_one.mpr ?_
    intro i hi j hj
    simp only [Finset.mem_filter] at hi hj
    have h1 := hinv i (by rw [hi.2]; rfl)
    have h2 := hinv j (by rw [hj.2]; rfl)
    exact Option.some.inj (h1.symm.trans h2)
  · rintro ⟨h0, h1⟩
    have ha := hinv 0 (by rw [h0]; rfl)
    have hb := hinv 1 (by rw [h1]; rfl)
    have := Option.some.inj (ha.symm.trans hb)
    exact absurd this (by decide)

/-- Witness for C10 at the initial configuration. -/
theorem claim_C10_witness :
    (Finset.univ.filter fun i => ((initConf 2 2).loc i = Loc.exec)).card ≤ 1 ∧
      ¬((initConf 2 2).loc 0 = Loc.exec ∧ (initConf 2 2).loc 1 = Loc.exec) :=
  claim_C10 (initConf 2 2) Relation.ReflTransGen.refl

/-! ### C6: a successful FindDir does not cache its result under its own path -/

/-- splitSlash never returns the empty list (Go strings.Split never
returns an empty slice). -/
theorem splitSlash_ne_nil : ∀ l : List Char, splitSlash l ≠ []
  | [] => by simp [splitSlash]
  | c :: cs => by
    by_cases hc : c = '/'
    · simp [splitSlash, hc]
    · simp only [splitSlash, if_neg hc]
      cases h : splitSlash cs with
      | nil => simp
      | cons p ps => simp

/-- Joining character-level fields back with slashes, the inverse of
splitSlash. -/
def joinSlash : List (List Char) → List Char
  | [] => []
  | [x] => x
  | x :: y :: rest => x ++ '/' :: joinSlash (y :: rest)

/-- Splitting on slashes and joining back is the identity. -/
theorem joinSlash_splitSlash : ∀ l : List Char, joinSlash (splitSlash l) = l := by
  intro l
  induction l with
  | nil => rfl
  | cons c cs ih =>
    by_cases hc : c = '/'
    · subst hc
      simp only [splitSlash, if_pos rfl]
      cases h : splitSlash cs with
      | nil => exact absurd h (splitSlash_ne_nil cs)
      | cons s0 rest =>
        rw [h] at ih
        show joinSlash ([] :: s0 :: rest) = '/' :: cs
        rw [joinSlash]
        simp only [List.nil_append]
        rw [ih]
    · simp only [splitSlash, if_neg hc]
      cases h : splitSlash cs with
      | nil => exact absurd h (splitSlash_ne_nil cs)
      | cons p ps =>
        rw [h] at ih
        cases ps with
        | nil =>
          show joinSlash [c :: p] = c :: cs
          rw [joinSlash]
          rw [joinSlash] at ih
          rw [ih]
        | cons q qs =>
          show joinSlash ((c :: p) :: q :: qs) = c :: cs
          rw [joinSlash]
          rw [joinSlash] at ih
          simp only [List.cons_append]
          rw [ih]


/-- goJoin on nonempty strings is append with a slash, at the
character-list level. -/
theorem goJoin_mk (a s : List Char) (ha : a ≠ []) (hs : s ≠ []) :
    goJoin (String.mk a) (String.mk s) = String.mk (a ++ '/' :: s) := by
  have h1 : (String.mk a) ≠ "" := fun h => ha (congrArg String.data h)
  have h2 : (String.mk s) ≠ "" := fun h => hs (congrArg String.data h)
  have h3 : goJoin (String.mk a) (String.mk s) = String.mk ((a ++ ['/']) ++ s) := by
    unfold goJoin; rw [if_neg h1, if_neg h2]; rfl
  rw [h3, List.append_assoc]
  rfl

/-- Folding goJoin from a nonempty accumulator over nonempty fields is
joinSlash. -/
theorem foldl_goJoin_mk : ∀ (ls : List (List Char)) (a : List Char), a ≠ [] →
    (∀ s ∈ ls, s ≠ []) →
    List.foldl goJoin (String.mk a) (ls.map String.mk) = String.mk (joinSlash (a :: ls)) := by
  intro ls
  induction ls with
  | nil => intro a _ _; rfl
  | cons s rest ih =>
    intro a ha hmem
    have hs : s ≠ [] := hmem s (by simp)
    simp only [List.map_cons, List.foldl_cons]
    rw [goJoin_mk a s ha hs]
    rw [ih (a ++ '/' :: s) (by simp) (fun t ht => hmem t (by simp [ht]))]
    congr 1
    cases rest with
    | nil => rfl
    | cons q qs => simp [joinSlash, List.append_assoc]

/-- Joining the split of a path whose fields are all nonempty gives the
path back. -/
theorem goJoinList_goSplit (p : String) (h : ∀ s ∈ goSplit p, s ≠ "") :
    goJoinList (goSplit p) = p := by
  obtain ⟨l⟩ := p
  show goJoinList ((splitSlash l).map String.mk) = String.mk l
  cases hs : splitSlash l with
  | nil => exact absurd hs (splitSlash_ne_nil l)
  | cons s0 rest =>
    have hne : ∀ s ∈ s0 :: rest, s ≠ [] := by
      intro s hsmem hempty
      have hmem2 : String.mk s ∈ goSplit (String.mk l) := by
        show String.mk s ∈ (splitSlash l).map String.mk
        rw [hs]; exact List.mem_map_of_mem _ hsmem
      have h2 := h _ hmem2
      subst hempty
      exact h2 rfl
    have h0 : s0 ≠ [] := hne s0 (by simp)
    show List.foldl goJoin "" (List.map String.mk (s0 :: rest)) = String.mk l
    simp only [List.map_cons, List.foldl_cons]
    have hgj : goJoin "" (String.mk s0) = String.mk s0 := by unfold goJoin; rw [if_pos rfl]
    rw [hgj, foldl_goJoin_mk rest s0 h0 (fun t ht => hne t (by simp [ht]))]
    rw [← hs, joinSlash_splitSlash]

/-- goJoin never shortens its left argument. -/
theorem goJoin_length_le (a b : String) : a.length ≤ (goJoin a b).length := by
  unfold goJoin
  by_cases ha : a = ""
  · rw [if_pos ha, ha]; simp
  · rw [if_neg ha]
    by_cases hb : b = ""
    · rw [if_pos hb]
    · rw [if_neg hb]
      obtain ⟨x⟩ := a
      obtain ⟨y⟩ := b
      show x.length ≤ ((x ++ ['/']) ++ y).length
      simp

/-- goJoin of two nonempty strings is strictly longer than the left one. -/
theorem goJoin_length_lt (a b : String) (ha : a ≠ "") (hb : b ≠ "") :
    a.length < (goJoin a b).length := by
  unfold goJoin
  rw [if_neg ha, if_neg hb]
  obtain ⟨x⟩ := a
  obtain ⟨y⟩ := b
  show x.length < ((x ++ ['/']) ++ y).length
  simp


/-- goSplit never returns the empty list. -/
theorem goSplit_ne_nil (p : String) : goSplit p ≠ [] := by
  obtain ⟨l⟩ := p
  show (splitSlash l).map String.mk ≠ []
  simp [splitSlash_ne_nil l]

/-- The dirPath accumulated by the first FindDir loop is the fold of
goJoin over all parts, independent of the cache. -/
theorem findDirScan_dirPath (dc : DirCache) :
    ∀ parts pid dp, (findDirScan dc parts pid dp).2.1 = List.foldl goJoin dp parts := by
  intro parts
  induction parts with
  | nil => intro pid dp; rfl
  | cons part rest ih =>
    intro pid dp
    simp only [findDirScan, List.foldl_cons]
    cases hG : dc.Get (goJoin dp part) with
    | some dirID => exact ih dirID (goJoin dp part)
    | none =>
      rcases hrec : findDirScan dc rest pid (goJoin dp part) with ⟨p1, d1, l1⟩
      simp only [hrec]
      have h2 := ih pid (goJoin dp part)
      rw [hrec] at h2
      exact h2

/-- Every element of partsToFind is one of the walked parts. -/
theorem findDirScan_subset (dc : DirCache) :
    ∀ parts pid dp s, s ∈ (findDirScan dc parts pid dp).2.2 → s ∈ parts := by
  intro parts
  induction parts with
  | nil => intro pid dp s h; exact absurd h (by simp [findDirScan])
  | cons part rest ih =>
    intro pid dp s h
    simp only [findDirScan] at h
    cases hG : dc.Get (goJoin dp part) with
    | some dirID =>
      rw [hG] at h
      exact List.mem_cons_of_mem _ (ih dirID (goJoin dp part) s h)
    | none =>
      rw [hG] at h
      rcases hrec : findDirScan dc rest pid (goJoin dp part) with ⟨p1, d1, l1⟩
      rw [hrec] at h
      simp only [List.mem_cons] at h
      cases h with
      | inl he => exact he ▸ List.mem_cons_self _ _
      | inr hm =>
        have h2 := ih pid (goJoin dp part) s (by rw [hrec]; exact hm)
        exact List.mem_cons_of_mem _ h2

/-- If the fully accumulated path is not cached, the first FindDir loop
leaves at least one part to find. -/
theorem findDirScan_uncached (dc : DirCache) :
    ∀ parts pid dp, parts ≠ [] → dc.Get (List.foldl goJoin dp parts) = none →
      (findDirScan dc parts pid dp).2.2 ≠ [] := by
  intro parts
  induction parts with
  | nil => intro pid dp h _; exact absurd rfl h
  | cons part rest ih =>
    intro pid dp _ hG
    simp only [List.foldl_cons] at hG
    simp only [findDirScan]
    cases hGet : dc.Get (goJoin dp part) with
    | some dirID =>
      cases rest with
      | nil =>
        simp only [List.foldl_nil] at hG
        rw [hG] at hGet
        exact Option.noConfusion hGet
      | cons r rs =>
        exact ih dirID (goJoin dp part) (by simp) hG
    | none =>
      rcases hrec : findDirScan dc rest pid (goJoin dp part) with ⟨p1, d1, l1⟩
      simp only [hrec]
      simp


/-- The second FindDir loop never touches a cache key at most as long as
its starting dirPath: every key it Puts is strictly longer. -/
theorem findDirResolve_get (be : DirCacher) (p0 q : String) (hq : 0 < q.length) :
    ∀ partsTF (dc2 : DirCache) pid dp log, (∀ s ∈ partsTF, s ≠ "") →
      q.length ≤ dp.length →
      (findDirResolve be p0 partsTF dc2 pid dp log).dc.Get q = dc2.Get q := by
  intro partsTF
  induction partsTF with
  | nil => intro dc2 pid dp log _ _; rfl
  | cons part rest ih =>
    intro dc2 pid dp log hmem hlen
    simp only [findDirResolve]
    cases hFL : be.FindLeaf pid part with
    | error e => rfl
    | ok o =>
      cases o with
      | none => rfl
      | some dirID =>
        have hpart : part ≠ "" := hmem part (by simp)
        have hdp : dp ≠ "" := by
          intro h
          rw [h] at hlen
          have : q.length ≤ 0 := hlen
          omega
        have hlt : q.length < (goJoin dp part).length :=
          lt_of_le_of_lt hlen (goJoin_length_lt dp part hdp hpart)
        rw [ih (dc2.Put (goJoin dp part) dirID) dirID (goJoin dp part) _
          (fun t ht => hmem t (by simp [ht])) (le_of_lt hlt)]
        show mapInsert dc2.cache (goJoin dp part) dirID q = dc2.cache q
        unfold mapInsert
        rw [if_neg]
        intro h
        rw [h] at hlt
        exact lt_irrefl _ hlt

/-- The second FindDir loop does not change foundRoot. -/
theorem findDirResolve_foundRoot (be : DirCacher) (p0 : String) :
    ∀ partsTF (dc2 : DirCache) pid dp log,
      (findDirResolve be p0 partsTF dc2 pid dp log).dc.foundRoot = dc2.foundRoot := by
  intro partsTF
  induction partsTF with
  | nil => intro dc2 pid dp log; rfl
  | cons part rest ih =>
    intro dc2 pid dp log
    simp only [findDirResolve]
    cases hFL : be.FindLeaf pid part with
    | error e => rfl
    | ok o =>
      cases o with
      | none => rfl
      | some dirID => exact ih (dc2.Put (goJoin dp part) dirID) dirID (goJoin dp part) _

/-- The second FindDir loop only appends to the call log. -/
theorem findDirResolve_log_len (be : DirCacher) (p0 : String) :
    ∀ partsTF (dc2 : DirCache) pid dp log,
      log.length ≤ (findDirResolve be p0 partsTF dc2 pid dp log).log.length := by
  intro partsTF
  induction partsTF with
  | nil => intro dc2 pid dp log; exact le_refl _
  | cons part rest ih =>
    intro dc2 pid dp log
    simp only [findDirResolve]
    cases hFL : be.FindLeaf pid part with
    | error e => simp
    | ok o =>
      cases o with
      | none => simp
      | some dirID =>
        have h2 := ih (dc2.Put (goJoin dp part) dirID) dirID (goJoin dp part)
          (log ++ [BCall.findLeaf pid part])
        exact le_trans (by simp) h2

/-- With at least one part to find, the second FindDir loop makes at
least one backend call. -/
theorem findDirResolve_log_ne (be : DirCacher) (p0 part : String) (rest : List String)
    (dc2 : DirCache) (pid dp : String) :
    (findDirResolve be p0 (part :: rest) dc2 pid dp []).log ≠ [] := by
  simp only [findDirResolve]
  cases hFL : be.FindLeaf pid part with
  | error e => simp
  | ok o =>
    cases o with
    | none => simp
    | some dirID =>
      have h2 := findDirResolve_log_len be p0 rest (dc2.Put (goJoin dp part) dirID) dirID
        (goJoin dp part) ([] ++ [BCall.findLeaf pid part])
      have h4 : 0 < ((findDirResolve be p0 rest (dc2.Put (goJoin dp part) dirID) dirID
          (goJoin dp part) ([] ++ [BCall.findLeaf pid part])).log).length :=
        lt_of_lt_of_le (by simp) h2
      exact List.length_pos.mp h4


/-- Unfolding of FindDir after the root was found, on a nonempty path,
given the outcome of its first loop. -/
theorem FindDir_eq (dc : DirCache) (be : DirCacher) (p : String)
    (hfr : dc.foundRoot = true) (hp : p ≠ "")
    (parentID dirPath : String) (partsTF : List String)
    (hscan : findDirScan dc (goSplit p) dc.rootID "" = (parentID, dirPath, partsTF)) :
    dc.FindDir be p = findDirResolve be p partsTF dc parentID dirPath [] := by
  unfold DirCache.FindDir
  rw [hfr]
  simp only [Bool.true_eq_false, if_false, if_neg hp, hscan]

/-- C6: for a non-empty path of plain segments absent from the forward
cache, a successful FindDir still leaves the cache without an entry for
that path (the second loop stores its results under longer, doubled
keys), so a repeated FindDir issues backend FindLeaf calls again. -/
theorem claim_C6 (dc : DirCache) (be : DirCacher) (p id : String)
    (hfr : dc.foundRoot = true) (hp : p ≠ "")
    (hsegs : ∀ s ∈ goSplit p, SimpleSeg s)
    (hnc : dc.Get p = none)
    (hok : (dc.FindDir be p).res = .ok id) :
    (dc.FindDir be p).dc.Get p = none ∧
      ((dc.FindDir be p).dc.FindDir be p).log ≠ [] := by
  have hne : ∀ s ∈ goSplit p, s ≠ "" := fun s hs => (hsegs s hs).1
  have hJ : goJoinList (goSplit p) = p := goJoinList_goSplit p hne
  have hplen : 0 < p.length := by
    obtain ⟨l⟩ := p
    cases l with
    | nil => exact absurd rfl hp
    | cons c cs => exact Nat.succ_pos _
  rcases hscan : findDirScan dc (goSplit p) dc.rootID "" with ⟨parentID, dirPath, partsTF⟩
  have hdir : dirPath = p := by
    have h2 := findDirScan_dirPath dc (goSplit p) dc.rootID ""
    rw [hscan] at h2
    exact h2.trans hJ
  have hTF : ∀ s ∈ partsTF, s ≠ "" := by
    intro s hs
    have h2 := findDirScan_subset dc (goSplit p) dc.rootID "" s (by rw [hscan]; exact hs)
    exact hne s h2
  have hFD : dc.FindDir be p = findDirResolve be p partsTF dc parentID dirPath [] :=
    FindDir_eq dc be p hfr hp parentID dirPath partsTF hscan
  have hget : (dc.FindDir be p).dc.Get p = none := by
    rw [hFD]
    rw [findDirResolve_get be p p hplen partsTF dc parentID dirPath [] hTF
      (by rw [hdir])]
    exact hnc
  refine ⟨hget, ?_⟩
  have hfr2 : (dc.FindDir be p).dc.foundRoot = true := by
    rw [hFD, findDirResolve_foundRoot]
    exact hfr
  rcases hscan2 : findDirScan (dc.FindDir be p).dc (goSplit p)
      (dc.FindDir be p).dc.rootID "" with ⟨pid2, dp2, tf2⟩
  have htf2 : tf2 ≠ [] := by
    have h2 := findDirScan_uncached (dc.FindDir be p).dc (goSplit p)
      (dc.FindDir be p).dc.rootID "" (goSplit_ne_nil p)
      (by rw [show List.foldl goJoin "" (goSplit p) = p from hJ]; exact hget)
    rw [hscan2] at h2
    exact h2
  rw [FindDir_eq (dc.FindDir be p).dc be p hfr2 hp pid2 dp2 tf2 hscan2]
  cases tf2 with
  | nil => exact absurd rfl htf2
  | cons t ts => exact findDirResolve_log_ne be p t ts (dc.FindDir be p).dc pid2 dp2


/-- A backend whose FindLeaf finds every leaf. -/
def beFindsAll : DirCacher :=
  { FindLeaf := fun _ leaf => .ok (some ("id-" ++ leaf))
    CreateDir := fun _ _ => .error (.backend "unused") }

/-- Witness for C6 on the path "a/b" over an empty cache and a backend
finding every leaf. -/
theorem claim_C6_witness :
    (dcEmptyFound.FindDir beFindsAll "a/b").dc.Get "a/b" = none ∧
      ((dcEmptyFound.FindDir beFindsAll "a/b").dc.FindDir beFindsAll "a/b").log ≠ [] :=
  claim_C6 dcEmptyFound beFindsAll "a/b" "id-b" rfl (by decide) (by decide) rfl rfl

end StandaloneGdrive
